import Mathlib

/-!
Shallow embedding of the rule-based core of the KumaoniTrans repository
(`src/chatbot.py`, `src/training_module.py`, `src/pattern_recognizer.py`).

Python dictionaries are modelled as association lists (`List (String × β)`)
in insertion order: `List.lookup` is `dict[k]` / `k in dict`, `upsert` is
`dict[k] = v`, and iteration in stored order is a fold over the list.
Python string primitives used by the code (`str.lower`, `str.strip`,
`str.split()`, `str.replace`, `in` on strings, `str.endswith`, slicing)
are re-implemented below by structural recursion over `List Char` so that
every definition evaluates inside the kernel.  ASCII case mapping is used
(the repository's data is Romanized text).  The one numeric comparison the
code performs on floats (`most_common[1] / len(translations) >= 0.7` in
`pattern_recognizer.py`) is modelled as the exact rational comparison
`7 * len ≤ 10 * count`.
-/

namespace KChat

/-- Characters of Python's `strip(".,?!\"'")` punctuation set in
`chatbot.py`. -/
def isPunc (c : Char) : Bool :=
  c == '.' || c == ',' || c == '?' || c == '!' || c == '"' || c == '\x27'

/-- Python `str.lower()` (ASCII case mapping). -/
def pyLower (s : String) : String :=
  String.mk (s.toList.map Char.toLower)

/-- Python `s.strip(".,?!\"'")`: drop the punctuation characters from both
ends. -/
def stripPunct (s : String) : String :=
  String.mk (((s.toList.dropWhile isPunc).reverse.dropWhile isPunc).reverse)

/-- Python `str.strip()` with no argument: drop whitespace from both ends. -/
def pyStrip (s : String) : String :=
  String.mk (((s.toList.dropWhile Char.isWhitespace).reverse.dropWhile
    Char.isWhitespace).reverse)

/-- Helper for Python `str.split()`: accumulate the current run of
non-whitespace characters (held reversed in `acc`) and emit completed runs. -/
def wsSplitAux : List Char → List Char → List String
  | [], acc => if acc.isEmpty then [] else [String.mk acc.reverse]
  | c :: rest, acc =>
    if c.isWhitespace then
      if acc.isEmpty then wsSplitAux rest []
      else String.mk acc.reverse :: wsSplitAux rest []
    else wsSplitAux rest (c :: acc)

/-- Python `str.split()` with no argument: split on whitespace runs,
discarding empty pieces. -/
def pySplit (s : String) : List String :=
  wsSplitAux s.toList []

/-- Python `" ".join(l)` (generalized to any separator). -/
def joinWith (sep : String) : List String → String
  | [] => ""
  | [x] => x
  | x :: y :: rest => x ++ sep ++ joinWith sep (y :: rest)

/-- `leadsWith pat s` is true when `pat` is an initial run of `s`. -/
def leadsWith : List Char → List Char → Bool
  | [], _ => true
  | _ :: _, [] => false
  | a :: as, b :: bs => a == b && leadsWith as bs

/-- `hasSub pat s` is Python `pat in s` on strings: `pat` occurs as a
contiguous substring of `s` (the empty pattern always occurs). -/
def hasSub (pat : List Char) : List Char → Bool
  | [] => pat.isEmpty
  | c :: rest => leadsWith pat (c :: rest) || hasSub pat rest

/-- Python `pat in s` for strings. -/
def strContains (s pat : String) : Bool :=
  hasSub pat.toList s.toList

/-- Fuel-indexed left-to-right non-overlapping replacement of a non-empty
pattern; `fuel` is the length of the scanned list, so the zero-fuel case is
unreachable. -/
def replFuel (pat rep : List Char) : Nat → List Char → List Char
  | 0, s => s
  | fuel + 1, s =>
    match s with
    | [] => []
    | c :: rest =>
      if leadsWith pat s then rep ++ replFuel pat rep fuel (s.drop pat.length)
      else c :: replFuel pat rep fuel rest

/-- Python `s.replace(pat, rep)`: every non-overlapping occurrence of `pat`
is replaced left to right; an empty pattern inserts `rep` at every character
boundary, as Python does. -/
def pyReplace (s pat rep : String) : String :=
  match pat.toList with
  | [] =>
    String.mk (rep.toList ++ s.toList.foldr (fun c acc => c :: (rep.toList ++ acc)) [])
  | p :: ps =>
    String.mk (replFuel (p :: ps) rep.toList s.toList.length s.toList)

/-- Python `word_lower[:-n]` for `n = len(ending)` in
`KumaoniChatbot.translate_word`: slicing with `n = 0` yields the empty
string (`s[:-0] == s[:0] == ""` in Python), otherwise it drops the last `n`
characters. -/
def pySliceDrop (s : String) (n : Nat) : String :=
  if n = 0 then "" else String.mk (s.toList.take (s.toList.length - n))

/-- Dropping the last `n` characters of `s` (used by the spec-side reading
of the verb-ending rule, where the matched suffix is stripped from the
token). -/
def dropRightL (s : String) (n : Nat) : String :=
  String.mk (s.toList.take (s.toList.length - n))

/-- `endsWithL s post` is Python `s.endswith(post)`. -/
def endsWithL (s post : String) : Bool :=
  leadsWith post.toList.reverse s.toList.reverse

/-- Python `d[k] = v` on a dict modelled as an insertion-ordered association
list: the first binding of `k` is updated in place, otherwise the pair is
appended. -/
def upsert {β : Type} : List (String × β) → String → β → List (String × β)
  | [], k, v => [(k, v)]
  | (a, b) :: rest, k, v =>
    if a = k then (a, v) :: rest else (a, b) :: upsert rest k v

/-- The lexical stores loaded by `KumaoniChatbot.__init__`: the vocabulary
and phrase mappings plus the four grammar-rule tables, each an
insertion-ordered Hinglish → Kumaoni mapping. -/
structure ChatData where
  vocab : List (String × String)
  phrases : List (String × String)
  verb_endings : List (String × String)
  postpositions : List (String × String)
  pronouns : List (String × String)
  question_words : List (String × String)

/-- `word.lower().strip(".,?!\"'")` — the token normalization performed at
the top of `KumaoniChatbot.translate_word`. -/
def normTok (w : String) : String :=
  stripPunct (pyLower w)

/-- The `hinglish_to_kumaoni` branch of `KumaoniChatbot.translate_word`
(chatbot.py lines 318–341): pronouns, question words, postpositions,
vocabulary, each an exact lookup in that order; then the verb-ending suffix
scan in stored order requiring `word_lower.endswith(ending)` and
`len(word_lower) > len(ending)`; otherwise the original word. -/
def forward_word (d : ChatData) (word : String) : String :=
  match List.lookup (normTok word) d.pronouns with
  | some v => v
  | none =>
    match List.lookup (normTok word) d.question_words with
    | some v => v
    | none =>
      match List.lookup (normTok word) d.postpositions with
      | some v => v
      | none =>
        match List.lookup (normTok word) d.vocab with
        | some v => v
        | none =>
          match d.verb_endings.find?
              (fun p => endsWithL (normTok word) p.1 &&
                decide (p.1.length < (normTok word).length)) with
          | some p => pySliceDrop (normTok word) p.1.length ++ p.2
          | none => word

/-- The `kumaoni_to_hinglish` branch of `KumaoniChatbot.translate_word`
(chatbot.py lines 342–364): linear scans over vocabulary, pronouns,
question words, postpositions for a value whose lowercase form equals the
normalized token, first hit returning its key; otherwise the original
word. -/
def reverse_word (d : ChatData) (word : String) : String :=
  match d.vocab.find? (fun p => pyLower p.2 == normTok word) with
  | some p => p.1
  | none =>
    match d.pronouns.find? (fun p => pyLower p.2 == normTok word) with
    | some p => p.1
    | none =>
      match d.question_words.find? (fun p => pyLower p.2 == normTok word) with
      | some p => p.1
      | none =>
        match d.postpositions.find? (fun p => pyLower p.2 == normTok word) with
        | some p => p.1
        | none => word

/-- `KumaoniChatbot.translate_word`: the direction string is compared
against `"hinglish_to_kumaoni"`; every other value falls into the `else`
branch, which the code treats as `kumaoni_to_hinglish`. -/
def translate_word (d : ChatData) (word direction : String) : String :=
  if direction = "hinglish_to_kumaoni" then forward_word d word
  else reverse_word d word

/-- One step of the forward phrase pass in `KumaoniChatbot.translate`
(chatbot.py lines 385–387): if the lowercased phrase key occurs in the
lowercased running text, the text is lowercased and every occurrence is
replaced by the phrase's stored translation. -/
def phraseStepF (t : String) (p : String × String) : String :=
  if strContains (pyLower t) (pyLower p.1) then
    pyReplace (pyLower t) (pyLower p.1) p.2
  else t

/-- The forward phrase pass: phrases are tried in mapping iteration order. -/
def phrasePassF (phrases : List (String × String)) (text : String) : String :=
  phrases.foldl phraseStepF text

/-- One step of the reverse phrase pass (chatbot.py lines 389–391):
occurrences of the lowercased phrase *value* are replaced by the phrase
key. -/
def phraseStepR (t : String) (p : String × String) : String :=
  if strContains (pyLower t) (pyLower p.2) then
    pyReplace (pyLower t) (pyLower p.2) p.1
  else t

/-- The reverse phrase pass, in mapping iteration order. -/
def phrasePassR (phrases : List (String × String)) (text : String) : String :=
  phrases.foldl phraseStepR text

/-- `KumaoniChatbot.translate` (chatbot.py lines 381–396): the phrase pass
in the requested direction, then the remaining text is split on whitespace,
each token translated via `translate_word`, and the results joined with
single spaces. -/
def translate (d : ChatData) (text direction : String) : String :=
  joinWith " "
    ((pySplit (if direction = "hinglish_to_kumaoni"
        then phrasePassF d.phrases text
        else phrasePassR d.phrases text)).map
      (fun w => translate_word d w direction))

/-- One token's contribution in the word loop of
`KumaoniChatbot.detect_language` (chatbot.py lines 255–262): the token is
stripped of punctuation; if it is a vocabulary key the Hinglish counter is
incremented, `elif` it occurs among the vocabulary values the Kumaoni
counter is incremented. -/
def voteStep (vocab : List (String × String)) (acc : Nat × Nat) (w : String) :
    Nat × Nat :=
  if (List.lookup (stripPunct w) vocab).isSome then (acc.1 + 1, acc.2)
  else if (vocab.map (fun p => p.2)).contains (stripPunct w) then
    (acc.1, acc.2 + 1)
  else acc

/-- `KumaoniChatbot.detect_language` (chatbot.py lines 249–276): per-token
votes over `text.lower().split()`, then 3 extra Hinglish votes for every
phrase key occurring as a substring of the lowercased text and 3 extra
Kumaoni votes for every phrase value occurring as a substring; `kumaoni`
is returned only when the Kumaoni total strictly exceeds the Hinglish
total. -/
def detect_language (d : ChatData) (text : String) : String :=
  let counts := (pySplit (pyLower text)).foldl (voteStep d.vocab) (0, 0)
  let hc := counts.1 + 3 * d.phrases.countP (fun p => strContains (pyLower text) p.1)
  let kc := counts.2 + 3 * d.phrases.countP (fun p => strContains (pyLower text) p.2)
  if hc < kc then "kumaoni" else "hinglish"

/-- The conversation-session state touched by
`KumaoniChatbot.set_language_preference`. -/
structure ConversationContext where
  language_preference : String
deriving DecidableEq

/-- The message returned by `set_language_preference` for an unrecognized
preference string. -/
def invalidPrefMsg : String :=
  "Invalid language preference. Use \x27kumaoni\x27, \x27hinglish\x27, or \x27mixed\x27."

/-- `KumaoniChatbot.set_language_preference` (chatbot.py lines 484–490):
`preference in ["kumaoni", "hinglish", "mixed"]` stores the preference and
reports it; anything else returns the invalid-preference message and leaves
the context untouched. -/
def set_language_preference (ctx : ConversationContext) (preference : String) :
    ConversationContext × String :=
  if preference = "kumaoni" ∨ preference = "hinglish" ∨ preference = "mixed" then
    ({ language_preference := preference },
      "Language preference set to " ++ preference)
  else (ctx, invalidPrefMsg)

/-- One entry of the per-key corrections log written by
`TrainingModule.add_word` (the timestamp field of the Python record is
process time and is not modelled). -/
structure CorrectionRecord where
  old : String
  new : String
deriving DecidableEq

/-- The part of `TrainingModule.data` that `add_word` reads and writes: the
vocabulary mapping and `corrections["words"]`. -/
structure TrainState where
  vocab : List (String × String)
  corrections_words : List (String × List CorrectionRecord)
deriving DecidableEq

/-- `hinglish.lower().strip()` — the key normalization in
`TrainingModule.add_word`. -/
def normKey (s : String) : String :=
  pyStrip (pyLower s)

/-- `TrainingModule.add_word` (training_module.py lines 92–135): if the
normalized key already maps to the identical normalized value the call is a
no-op returning `false`; if it maps to a different value, one
`{old, new}` record is appended to that key's corrections list and the
vocabulary entry is overwritten; otherwise the pair is simply added.  The
returned boolean reports whether a new value was written. -/
def add_word (st : TrainState) (hinglish kumaoni : String) :
    TrainState × Bool :=
  match List.lookup (normKey hinglish) st.vocab with
  | some existing =>
    if existing = pyStrip kumaoni then (st, false)
    else
      ({ vocab := upsert st.vocab (normKey hinglish) (pyStrip kumaoni),
         corrections_words := upsert st.corrections_words (normKey hinglish)
           (((List.lookup (normKey hinglish) st.corrections_words).getD []) ++
             [{ old := existing, new := pyStrip kumaoni }]) }, true)
  | none =>
    ({ st with vocab := upsert st.vocab (normKey hinglish) (pyStrip kumaoni) },
      true)

/-- All contiguous `n`-grams of the word list `ws` of one Kumaoni sentence,
paired with that sentence's aligned Hinglish text, exactly as accumulated
into `kumaoni_phrases` by `PatternRecognizer.extract_idioms` (the `if
len(kumaoni_words) >= n` guard included). -/
def ngramOccs (hing : String) (ws : List String) (n : Nat) :
    List (String × String) :=
  if n ≤ ws.length then
    (List.range (ws.length - n + 1)).map
      (fun i => (joinWith " " ((ws.drop i).take n), hing))
  else []

/-- The full occurrence stream of `extract_idioms`: for every corpus item
(in order), the 2-, 3- and 4-grams of its Kumaoni side, each paired with
the item's Hinglish sentence.  Grouping this stream by its first component
reproduces the `defaultdict(list)` named `kumaoni_phrases`. -/
def occurrences (dataset : List (String × String)) : List (String × String) :=
  (dataset.map (fun item =>
    ngramOccs item.1 (pySplit item.2) 2 ++
    ngramOccs item.1 (pySplit item.2) 3 ++
    ngramOccs item.1 (pySplit item.2) 4)).flatten

/-- The list `kumaoni_phrases[ph]`: the aligned Hinglish sentences of every
occurrence of the n-gram `ph`, in accumulation order. -/
def translationsOf (dataset : List (String × String)) (ph : String) :
    List String :=
  ((occurrences dataset).filter (fun p => p.1 = ph)).map (fun p => p.2)

/-- One step of `collections.Counter` construction: increment the count of
`x`, first-insertion order preserved. -/
def bump : List (String × Nat) → String → List (String × Nat)
  | [], x => [(x, 1)]
  | p :: rest, x =>
    if p.1 = x then (p.1, p.2 + 1) :: rest else p :: bump rest x

/-- `collections.Counter(l)` as an insertion-ordered association list. -/
def tally (l : List String) : List (String × Nat) :=
  l.foldl bump []

/-- `Counter(l).most_common(1)[0]`: the earliest-inserted element of
maximal count (Python's `most_common` sorts by count with a stable sort,
so ties resolve to first insertion). -/
def mostCommon (l : List String) : Option (String × Nat) :=
  match tally l with
  | [] => none
  | p :: rest => some (rest.foldl (fun best q => if best.2 < q.2 then q else best) p)

/-- The filter body of `PatternRecognizer.extract_idioms` for one n-gram:
kept when it has at least 3 occurrences and its most common aligned
Hinglish sentence covers at least 70% of them (`most_common[1] /
len(translations) >= 0.7`, modelled exactly as `7 * len ≤ 10 * count`);
the idiom's meaning is that sentence. -/
def idiomTest (dataset : List (String × String)) (ph : String) :
    Option (String × String) :=
  if 3 ≤ (translationsOf dataset ph).length then
    match mostCommon (translationsOf dataset ph) with
    | some mc =>
      if 7 * (translationsOf dataset ph).length ≤ 10 * mc.2 then
        some (ph, mc.1)
      else none
    | none => none
  else none

/-- The distinct keys of the occurrence stream in first-occurrence order —
the iteration order of the `kumaoni_phrases` defaultdict. -/
def firstOccsAux (seen : List String) : List String → List String
  | [] => []
  | x :: xs =>
    if x ∈ seen then firstOccsAux seen xs
    else x :: firstOccsAux (x :: seen) xs

/-- Distinct elements of a list in first-occurrence order. -/
def firstOccs (l : List String) : List String :=
  firstOccsAux [] l

/-- `PatternRecognizer.extract_idioms` (pattern_recognizer.py lines
71–108): the idiom mapping built by filtering every distinct n-gram of the
corpus through the threshold test. -/
def extract_idioms (dataset : List (String × String)) :
    List (String × String) :=
  (firstOccs ((occurrences dataset).map (fun p => p.1))).filterMap
    (idiomTest dataset)

/-- The forward word cascade as §4.2 of the spec words it, used to check
the code against the spec: the same four lookup tables in the same order,
then the first verb-ending entry whose suffix matches the token's tail
with a non-empty remainder, the suffix being stripped (`dropRightL`) and
the mapped ending appended. -/
def forwardSpecWord (d : ChatData) (word : String) : String :=
  match List.lookup (normTok word) d.pronouns with
  | some v => v
  | none =>
    match List.lookup (normTok word) d.question_words with
    | some v => v
    | none =>
      match List.lookup (normTok word) d.postpositions with
      | some v => v
      | none =>
        match List.lookup (normTok word) d.vocab with
        | some v => v
        | none =>
          match d.verb_endings.find?
              (fun p => endsWithL (normTok word) p.1 &&
                decide (p.1.length < (normTok word).length)) with
          | some p => dropRightL (normTok word) p.1.length ++ p.2
          | none => word

/-- Per-token Hinglish vote of `detect_language`: the stripped token is a
vocabulary key. -/
def tokenHVote (vocab : List (String × String)) (w : String) : Bool :=
  (List.lookup (stripPunct w) vocab).isSome

/-- Per-token Kumaoni vote of `detect_language` as the code computes it:
the stripped token is *not* a vocabulary key and occurs among the
vocabulary values (the `elif` makes the two checks mutually exclusive in
Hinglish's favor). -/
def tokenKVote (vocab : List (String × String)) (w : String) : Bool :=
  !(List.lookup (stripPunct w) vocab).isSome &&
    (vocab.map (fun p => p.2)).contains (stripPunct w)

/-- The total Hinglish vote count of `detect_language`. -/
def hVotes (d : ChatData) (text : String) : Nat :=
  (pySplit (pyLower text)).countP (tokenHVote d.vocab) +
    3 * d.phrases.countP (fun p => strContains (pyLower text) p.1)

/-- The total Kumaoni vote count of `detect_language` as the code computes
it. -/
def kVotes (d : ChatData) (text : String) : Nat :=
  (pySplit (pyLower text)).countP (tokenKVote d.vocab) +
    3 * d.phrases.countP (fun p => strContains (pyLower text) p.2)

/-- The Kumaoni vote total as claim C7's wording describes it: one vote
per token found among the vocabulary values (with no exclusion of tokens
that are also vocabulary keys) plus 3 votes per phrase-value substring
match. -/
def claimKVotes (d : ChatData) (text : String) : Nat :=
  (pySplit (pyLower text)).countP
    (fun w => (d.vocab.map (fun p => p.2)).contains (stripPunct w)) +
    3 * d.phrases.countP (fun p => strContains (pyLower text) p.2)

/-! ### Association-list and cascade lemmas -/

theorem lookup_upsert {β : Type} (d : List (String × β)) (k : String) (v : β) :
    List.lookup k (upsert d k v) = some v := by
  induction d with
  | nil => simp [upsert]
  | cons p rest ih =>
    obtain ⟨a, b⟩ := p
    by_cases h : a = k
    · subst h
      simp [upsert]
    · simp only [upsert, if_neg h, List.lookup_cons]
      have : (k == a) = false := by
        simp [beq_eq_false_iff_ne]
        exact fun hk => h hk.symm
      rw [this]
      exact ih

theorem lookup_upsert_ne {β : Type} (d : List (String × β)) (k key : String)
    (v : β) (h : key ≠ k) :
    List.lookup key (upsert d k v) = List.lookup key d := by
  induction d with
  | nil =>
    simp only [upsert, List.lookup_cons, List.lookup_nil]
    have : (key == k) = false := by simpa [beq_eq_false_iff_ne] using h
    rw [this]
  | cons p rest ih =>
    obtain ⟨a, b⟩ := p
    by_cases ha : a = k
    · subst ha
      have hba : (key == a) = false := by simpa [beq_eq_false_iff_ne] using h
      have hup : upsert ((a, b) :: rest) a v = (a, v) :: rest := by
        simp [upsert]
      rw [hup, List.lookup_cons, List.lookup_cons, hba]
    · simp only [upsert, if_neg ha, List.lookup_cons]
      cases hk : key == a with
      | true => rfl
      | false => exact ih

theorem lookup_mem {β : Type} {d : List (String × β)} {a : String} {b : β}
    (h : List.lookup a d = some b) : (a, b) ∈ d := by
  rcases List.lookup_eq_some_iff.mp h with ⟨l₁, l₂, rfl, -⟩
  exact List.mem_append_right _ (List.mem_cons_self _ _)

theorem length_ne_zero_of_ne_empty {s : String} (h : s ≠ "") :
    s.length ≠ 0 := by
  cases s with
  | mk data =>
    cases data with
    | nil => exact absurd rfl h
    | cons c cs => simp [String.length]

/-- Any direction string other than `"hinglish_to_kumaoni"` takes the
`else` branch of `translate_word`. -/
theorem translate_word_else (d : ChatData) (w dir : String)
    (h : dir ≠ "hinglish_to_kumaoni") :
    translate_word d w dir = reverse_word d w := by
  simp [translate_word, h]

theorem forward_eq_spec (d : ChatData) (w : String)
    (h : ∀ p ∈ d.verb_endings, p.1 ≠ "") :
    forward_word d w = forwardSpecWord d w := by
  unfold forward_word forwardSpecWord
  cases List.lookup (normTok w) d.pronouns with
  | some v => rfl
  | none =>
  cases List.lookup (normTok w) d.question_words with
  | some v => rfl
  | none =>
  cases List.lookup (normTok w) d.postpositions with
  | some v => rfl
  | none =>
  cases List.lookup (normTok w) d.vocab with
  | some v => rfl
  | none =>
  cases hf : d.verb_endings.find?
      (fun p => endsWithL (normTok w) p.1 &&
        decide (p.1.length < (normTok w).length)) with
  | none => rfl
  | some p =>
    have hne : p.1.length ≠ 0 :=
      length_ne_zero_of_ne_empty (h p (List.mem_of_find?_eq_some hf))
    simp [pySliceDrop, dropRightL, hne]

/-! ### C1: forward word cascade -/

/-- The store of claim C1's concrete example: pronoun map
`{"main": "ma"}` and verb-ending map `{"na": "no"}`. -/
def c1Data : ChatData :=
  { vocab := [], phrases := [], verb_endings := [("na", "no")],
    postpositions := [], pronouns := [("main", "ma")], question_words := [] }

/-- C1: forward `translate_word` normalizes the token and consults
pronouns, question words, postpositions and vocabulary in that order, and
only on a full miss applies the first verb-ending suffix rule with a
non-empty remainder (here stated as the equality of the code's cascade
with the spec-side cascade `forwardSpecWord`, for every store whose
suffix keys are non-empty); in particular `"main"` translates to `"ma"`
and `"khana"` to `"khano"` under C1's example maps. -/
theorem c1_forward_cascade :
    (∀ (d : ChatData) (w : String), (∀ p ∈ d.verb_endings, p.1 ≠ "") →
        translate_word d w "hinglish_to_kumaoni" = forwardSpecWord d w)
    ∧ translate_word c1Data "main" "hinglish_to_kumaoni" = "ma"
    ∧ translate_word c1Data "khana" "hinglish_to_kumaoni" = "khano" := by
  refine ⟨?_, by decide, by decide⟩
  intro d w h
  have ht : translate_word d w "hinglish_to_kumaoni" = forward_word d w := by
    simp [translate_word]
  rw [ht, forward_eq_spec d w h]

/-- Witness for C1 at the claim's own store. -/
theorem c1_forward_cascade_witness :
    (∀ p ∈ c1Data.verb_endings, p.1 ≠ "") ∧
      translate_word c1Data "khana" "hinglish_to_kumaoni" =
        forwardSpecWord c1Data "khana" :=
  ⟨by decide, c1_forward_cascade.1 c1Data "khana" (by decide)⟩

/-! ### C2: phrase pass -/

/-- A phrase store where a shorter phrase precedes a longer one in
iteration order. -/
def c2OrderData : ChatData :=
  { vocab := [], phrases := [("ho", "X"), ("kaise ho", "Y")],
    verb_endings := [], postpositions := [], pronouns := [],
    question_words := [] }

/-- A phrase store whose single phrase occurs inside a larger word of the
input. -/
def c2SubData : ChatData :=
  { vocab := [], phrases := [("as", "Z")], verb_endings := [],
    postpositions := [], pronouns := [], question_words := [] }

/-- C2: forward `translate` runs the phrase pass before word splitting;
the pass visits phrases in mapping iteration order (a fold), and every
phrase whose lowercased text occurs as a substring of the lowercased
running text has its occurrences replaced in place.  Concretely, with
phrases `[ho ↦ X, kaise ho ↦ Y]` the earlier shorter phrase wins on input
`"kaise ho"` (iteration order, not length order), and phrase `as ↦ Z`
matches inside the larger word `"kaska"` (no token-boundary check). -/
theorem c2_phrase_pass_order :
    (∀ (d : ChatData) (text : String),
        translate d text "hinglish_to_kumaoni" =
          joinWith " " ((pySplit (phrasePassF d.phrases text)).map
            (fun w => translate_word d w "hinglish_to_kumaoni")))
    ∧ (∀ (ps : List (String × String)) (q : String × String) (t : String),
        phrasePassF (ps ++ [q]) t = phraseStepF (phrasePassF ps t) q)
    ∧ (∀ (t : String) (p : String × String),
        strContains (pyLower t) (pyLower p.1) = true →
        phraseStepF t p = pyReplace (pyLower t) (pyLower p.1) p.2)
    ∧ translate c2OrderData "kaise ho" "hinglish_to_kumaoni" = "kaise X"
    ∧ translate c2SubData "kaska" "hinglish_to_kumaoni" = "kZka" := by
  refine ⟨?_, ?_, ?_, by decide, by decide⟩
  · intro d text
    simp [translate]
  · intro ps q t
    simp [phrasePassF]
  · intro t p h
    simp [phraseStepF, h]

/-- Witness for C2's conditional conjunct at a concrete matching input. -/
theorem c2_phrase_pass_order_witness :
    strContains (pyLower "kaska") (pyLower "as") = true ∧
      phraseStepF "kaska" ("as", "Z") =
        pyReplace (pyLower "kaska") (pyLower "as") "Z" :=
  ⟨by decide, c2_phrase_pass_order.2.2.1 "kaska" ("as", "Z") (by decide)⟩

/-! ### C9: phrase-before-word precedence -/

/-- Store of claim C9: phrase `kaise ho ↦ kas cha` plus the word rule
`kaise ↦ kas` (a question-word entry, the table that holds `kaise` in the
shipped grammar). -/
def c9Data : ChatData :=
  { vocab := [], phrases := [("kaise ho", "kas cha")], verb_endings := [],
    postpositions := [], pronouns := [], question_words := [("kaise", "kas")] }

/-- C9: translating `"aap kaise ho"` forward substitutes the registered
phrase during the phrase pass, so the result contains `"kas cha"`; pure
word-by-word translation of the same sentence would instead give
`"aap kas ho"`. -/
theorem c9_phrase_precedence :
    translate c9Data "aap kaise ho" "hinglish_to_kumaoni" = "aap kas cha"
    ∧ strContains (translate c9Data "aap kaise ho" "hinglish_to_kumaoni")
        "kas cha" = true
    ∧ joinWith " " ((pySplit "aap kaise ho").map
        (fun w => translate_word c9Data w "hinglish_to_kumaoni")) =
          "aap kas ho" :=
  ⟨by decide, by decide, by decide⟩

/-! ### C6: rejected-direction claim -/

/-- A vocabulary with the single entry `kaam ↦ ghar`. -/
def c6Data : ChatData :=
  { vocab := [("kaam", "ghar")], phrases := [], verb_endings := [],
    postpositions := [], pronouns := [], question_words := [] }

/-- C6 counterexample: an unrecognized translation direction is *not*
rejected — `translate_word` silently performs a reverse (Kumaoni to
Hinglish) translation, returning a changed word with no error message. -/
theorem c6_direction_counterexample :
    translate_word c6Data "ghar" "bogus_direction" = "kaam"
    ∧ translate_word c6Data "ghar" "kumaoni_to_hinglish" = "kaam"
    ∧ translate_word c6Data "ghar" "bogus_direction" ≠ "ghar" :=
  ⟨by decide, by decide, by decide⟩

/-- C6 amended: the language-preference setter rejects any preference
outside {kumaoni, hinglish, mixed} with an explanatory message and no
mutation, and accepts exactly those three values; translation, however,
does not reject an unrecognized direction — `translate_word` and
`translate` treat every direction other than `hinglish_to_kumaoni` as
`kumaoni_to_hinglish`. -/
theorem c6_amended_rejections :
    (∀ (ctx : ConversationContext) (p : String),
        p ≠ "kumaoni" → p ≠ "hinglish" → p ≠ "mixed" →
        set_language_preference ctx p = (ctx, invalidPrefMsg))
    ∧ (∀ (ctx : ConversationContext) (p : String),
        p = "kumaoni" ∨ p = "hinglish" ∨ p = "mixed" →
        set_language_preference ctx p =
          ({ language_preference := p }, "Language preference set to " ++ p))
    ∧ (∀ (d : ChatData) (w dir : String), dir ≠ "hinglish_to_kumaoni" →
        translate_word d w dir = translate_word d w "kumaoni_to_hinglish")
    ∧ (∀ (d : ChatData) (t dir : String), dir ≠ "hinglish_to_kumaoni" →
        translate d t dir = translate d t "kumaoni_to_hinglish") := by
  refine ⟨?_, ?_, ?_, ?_⟩
  · intro ctx p h1 h2 h3
    simp [set_language_preference, h1, h2, h3]
  · intro ctx p h
    unfold set_language_preference
    rw [if_pos h]
  · intro d w dir h
    simp [translate_word, h]
  · intro d t dir h
    simp [translate, translate_word, h]

/-- Witness for C6's amended statement: a concrete invalid preference is
rejected without mutation, and a concrete bogus direction reverse
translates. -/
theorem c6_amended_rejections_witness :
    ("klingon" : String) ≠ "kumaoni" ∧
      set_language_preference ⟨"mixed"⟩ "klingon" = (⟨"mixed"⟩, invalidPrefMsg) ∧
      translate_word c6Data "ghar" "reverse" =
        translate_word c6Data "ghar" "kumaoni_to_hinglish" :=
  ⟨by decide,
    c6_amended_rejections.1 ⟨"mixed"⟩ "klingon" (by decide) (by decide) (by decide),
    c6_amended_rejections.2.2.1 c6Data "ghar" "reverse" (by decide)⟩

/-! ### C3 / C4: training-module vocabulary updates -/

/-- After any `add_word` call, the normalized key holds the normalized
value. -/
theorem add_word_lookup_vocab (st : TrainState) (h k : String) :
    List.lookup (normKey h) (add_word st h k).1.vocab = some (pyStrip k) := by
  unfold add_word
  cases hl : List.lookup (normKey h) st.vocab with
  | none =>
    simpa using lookup_upsert st.vocab (normKey h) (pyStrip k)
  | some e =>
    by_cases he : e = pyStrip k
    · subst he
      simpa using hl
    · simpa [he] using lookup_upsert st.vocab (normKey h) (pyStrip k)

/-- C4: re-teaching the identical pair is a no-op — the second of two
identical `add_word` calls returns the state of the first unchanged
(vocabulary and corrections both) together with `false`. -/
theorem c4_reteach_idempotent (st : TrainState) (h k : String) :
    add_word (add_word st h k).1 h k = ((add_word st h k).1, false) := by
  have hv := add_word_lookup_vocab st h k
  set st1 := (add_word st h k).1 with hdef
  unfold add_word
  rw [hv]
  simp

/-- C3: teaching a key that already maps to a different value returns
`true`, overwrites the vocabulary entry with the new value, and appends
exactly one `{old, new}` record to that key's corrections list, leaving
every other key's corrections untouched. -/
theorem c3_correction_on_conflict (st : TrainState) (hing kum kOld : String)
    (hex : List.lookup (normKey hing) st.vocab = some kOld)
    (hne : kOld ≠ pyStrip kum) :
    (add_word st hing kum).2 = true
    ∧ List.lookup (normKey hing) (add_word st hing kum).1.vocab =
        some (pyStrip kum)
    ∧ List.lookup (normKey hing) (add_word st hing kum).1.corrections_words =
        some (((List.lookup (normKey hing) st.corrections_words).getD []) ++
          [{ old := kOld, new := pyStrip kum }])
    ∧ ∀ key, key ≠ normKey hing →
        List.lookup key (add_word st hing kum).1.corrections_words =
          List.lookup key st.corrections_words := by
  unfold add_word
  rw [hex]
  simp only [if_neg hne]
  refine ⟨trivial, ?_, ?_, ?_⟩
  · exact lookup_upsert st.vocab (normKey hing) (pyStrip kum)
  · exact lookup_upsert st.corrections_words (normKey hing) _
  · intro key hk
    exact lookup_upsert_ne st.corrections_words (normKey hing) key _ hk

/-- Witness for C3: the claim's own `ghar`/`gher` scenario, starting from
an empty store. -/
theorem c3_correction_on_conflict_witness :
    List.lookup (normKey "ghar")
        (add_word { vocab := [], corrections_words := [] } "ghar" "ghar").1.vocab =
      some "ghar"
    ∧ ("ghar" : String) ≠ pyStrip "gher"
    ∧ ((add_word (add_word { vocab := [], corrections_words := [] }
          "ghar" "ghar").1 "ghar" "gher").2 = true
      ∧ List.lookup (normKey "ghar")
          (add_word (add_word { vocab := [], corrections_words := [] }
            "ghar" "ghar").1 "ghar" "gher").1.vocab = some (pyStrip "gher")
      ∧ List.lookup (normKey "ghar")
          (add_word (add_word { vocab := [], corrections_words := [] }
            "ghar" "ghar").1 "ghar" "gher").1.corrections_words =
          some (((List.lookup (normKey "ghar")
            (add_word { vocab := [], corrections_words := [] }
              "ghar" "ghar").1.corrections_words).getD []) ++
            [{ old := "ghar", new := pyStrip "gher" }])
      ∧ ∀ key, key ≠ normKey "ghar" →
          List.lookup key
            (add_word (add_word { vocab := [], corrections_words := [] }
              "ghar" "ghar").1 "ghar" "gher").1.corrections_words =
            List.lookup key
              (add_word { vocab := [], corrections_words := [] }
                "ghar" "ghar").1.corrections_words) :=
  ⟨by decide, by decide,
    c3_correction_on_conflict
      (add_word { vocab := [], corrections_words := [] } "ghar" "ghar").1
      "ghar" "gher" "ghar" (by decide) (by decide)⟩

/-! ### C7 / C10: language detection -/

/-- The word-vote fold of `detect_language` computes the per-token
`countP` totals of the mutually exclusive predicates `tokenHVote` and
`tokenKVote`. -/
theorem bool_eq_false {b : Bool} (h : ¬ b = true) : b = false := by
  cases b
  · rfl
  · exact absurd rfl h

theorem voteStep_foldl (v : List (String × String)) (ws : List String) :
    ∀ a b : Nat, ws.foldl (voteStep v) (a, b) =
      (a + ws.countP (tokenHVote v), b + ws.countP (tokenKVote v)) := by
  have e1 : (if (true = true) then (1 : Nat) else 0) = 1 := by simp
  have e0 : (if (false = true) then (1 : Nat) else 0) = 0 := by simp
  induction ws with
  | nil =>
    intro a b
    simp
  | cons w t ih =>
    intro a b
    rw [List.foldl_cons, List.countP_cons, List.countP_cons]
    by_cases h1 : (List.lookup (stripPunct w) v).isSome = true
    · have hs : voteStep v (a, b) w = (a + 1, b) := by
        unfold voteStep
        rw [if_pos h1]
      have hH : tokenHVote v w = true := h1
      have hK : tokenKVote v w = false := by
        unfold tokenKVote
        rw [h1]
        rfl
      rw [hs, ih, hH, hK]
      simp only [e1, e0, if_true, if_false, eq_self_iff_true, Prod.mk.injEq]
      omega
    · by_cases h2 : (v.map (fun p => p.2)).contains (stripPunct w) = true
      · have hs : voteStep v (a, b) w = (a, b + 1) := by
          unfold voteStep
          rw [if_neg h1, if_pos h2]
        have hH : tokenHVote v w = false := bool_eq_false h1
        have hK : tokenKVote v w = true := by
          unfold tokenKVote
          rw [bool_eq_false h1, h2]
          rfl
        rw [hs, ih, hH, hK]
        simp only [e1, e0, if_true, if_false, eq_self_iff_true, Prod.mk.injEq]
        omega
      · have hs : voteStep v (a, b) w = (a, b) := by
          unfold voteStep
          rw [if_neg h1, if_neg h2]
        have hH : tokenHVote v w = false := bool_eq_false h1
        have hK : tokenKVote v w = false := by
          unfold tokenKVote
          rw [bool_eq_false h2]
          simp
        rw [hs, ih, hH, hK]
        simp only [e1, e0, if_true, if_false, eq_self_iff_true, Prod.mk.injEq]
        omega

/-- C7 counterexample: with vocabulary `[a ↦ a, x ↦ b]` and input
`"a b"`, the claim's vote formula (one Kumaoni vote for *every* token
found among the vocabulary values) predicts a Kumaoni majority, yet
`detect_language` returns `"hinglish"` because the `elif` gives the
ambiguous token `"a"` no Kumaoni vote. -/
theorem c7_votes_counterexample :
    ¬ (detect_language
        { vocab := [("a", "a"), ("x", "b")], phrases := [],
          verb_endings := [], postpositions := [], pronouns := [],
          question_words := [] } "a b" = "kumaoni" ↔
      hVotes
        { vocab := [("a", "a"), ("x", "b")], phrases := [],
          verb_endings := [], postpositions := [], pronouns := [],
          question_words := [] } "a b" <
      claimKVotes
        { vocab := [("a", "a"), ("x", "b")], phrases := [],
          verb_endings := [], postpositions := [], pronouns := [],
          question_words := [] } "a b") := by
  decide

/-- C7 amended: `detect_language` returns `"kumaoni"` exactly when the
code's Kumaoni vote total (one vote per token found among vocabulary
values *and not a vocabulary key*, plus 3 per phrase-value substring)
strictly exceeds the Hinglish total; whenever it does not — ties
included, and in particular when both totals are zero — it returns
`"hinglish"`. -/
theorem c7_amended_detect :
    (∀ (d : ChatData) (text : String),
        (detect_language d text = "kumaoni" ↔ hVotes d text < kVotes d text))
    ∧ (∀ (d : ChatData) (text : String),
        ¬ hVotes d text < kVotes d text → detect_language d text = "hinglish")
    ∧ (∀ (d : ChatData) (text : String),
        hVotes d text = 0 → kVotes d text = 0 →
        detect_language d text = "hinglish") := by
  have key : ∀ (d : ChatData) (text : String),
      detect_language d text =
        if hVotes d text < kVotes d text then "kumaoni" else "hinglish" := by
    intro d text
    unfold detect_language
    rw [voteStep_foldl]
    simp [hVotes, kVotes]
  refine ⟨?_, ?_, ?_⟩
  · intro d text
    rw [key]
    by_cases h : hVotes d text < kVotes d text
    · simp [h]
    · simp [h]
  · intro d text h
    rw [key, if_neg h]
  · intro d text h0 k0
    rw [key]
    simp [h0, k0]

/-- Witness for C7's amended statement on an input with no matches. -/
theorem c7_amended_detect_witness :
    hVotes
      { vocab := [("ghar", "ghar")], phrases := [], verb_endings := [],
        postpositions := [], pronouns := [], question_words := [] } "xyz" = 0
    ∧ kVotes
      { vocab := [("ghar", "ghar")], phrases := [], verb_endings := [],
        postpositions := [], pronouns := [], question_words := [] } "xyz" = 0
    ∧ detect_language
      { vocab := [("ghar", "ghar")], phrases := [], verb_endings := [],
        postpositions := [], pronouns := [], question_words := [] } "xyz" =
      "hinglish" :=
  ⟨by decide, by decide,
    c7_amended_detect.2.2
      { vocab := [("ghar", "ghar")], phrases := [], verb_endings := [],
        postpositions := [], pronouns := [], question_words := [] } "xyz"
      (by decide) (by decide)⟩

/-- C10: the two per-token vote checks are mutually exclusive in
Hinglish's favor — a token that is a vocabulary key increments only the
Hinglish counter (the Kumaoni value check is skipped), so an input whose
every token is both a vocabulary key and a vocabulary value, with no
phrase-value substring match, is classified `"hinglish"`. -/
theorem c10_ambiguous_hinglish :
    (∀ (v : List (String × String)) (acc : Nat × Nat) (w : String),
        (List.lookup (stripPunct w) v).isSome = true →
        voteStep v acc w = (acc.1 + 1, acc.2))
    ∧ (∀ (d : ChatData) (text : String),
        (∀ w ∈ pySplit (pyLower text),
          (List.lookup (stripPunct w) d.vocab).isSome = true ∧
            (d.vocab.map (fun p => p.2)).contains (stripPunct w) = true) →
        (∀ p ∈ d.phrases, strContains (pyLower text) p.2 = false) →
        detect_language d text = "hinglish") := by
  constructor
  · intro v acc w h
    simp [voteStep, h]
  · intro d text htok hph
    have hk : kVotes d text = 0 := by
      unfold kVotes
      have h1 : (pySplit (pyLower text)).countP (tokenKVote d.vocab) = 0 := by
        rw [List.countP_eq_zero]
        intro w hw
        simp [tokenKVote, (htok w hw).1]
      have h2 : d.phrases.countP (fun p => strContains (pyLower text) p.2) = 0 := by
        rw [List.countP_eq_zero]
        intro p hp
        simp [hph p hp]
      rw [h1, h2]
    unfold detect_language
    rw [voteStep_foldl]
    have : (0 : Nat) + (pySplit (pyLower text)).countP (tokenKVote d.vocab) +
        3 * d.phrases.countP (fun p => strContains (pyLower text) p.2) = 0 := by
      have := hk
      unfold kVotes at this
      omega
    simp only [this]
    simp

/-- Witness for C10 on vocabulary `[a ↦ a]` and input `"a a"`. -/
theorem c10_ambiguous_hinglish_witness :
    (∀ w ∈ pySplit (pyLower "a a"),
      (List.lookup (stripPunct w)
        ([("a", "a")] : List (String × String))).isSome = true ∧
        (([("a", "a")] : List (String × String)).map
          (fun p => p.2)).contains (stripPunct w) = true)
    ∧ detect_language
        { vocab := [("a", "a")], phrases := [("b c", "d e")],
          verb_endings := [], postpositions := [], pronouns := [],
          question_words := [] } "a a" = "hinglish" :=
  ⟨by decide,
    c10_ambiguous_hinglish.2
      { vocab := [("a", "a")], phrases := [("b c", "d e")],
        verb_endings := [], postpositions := [], pronouns := [],
        question_words := [] } "a a" (by decide) (by decide)⟩

/-! ### C5: idiom extraction -/

theorem mem_firstOccsAux (x : String) :
    ∀ (l seen : List String),
      x ∈ firstOccsAux seen l ↔ x ∈ l ∧ x ∉ seen := by
  intro l
  induction l with
  | nil =>
    intro seen
    simp [firstOccsAux]
  | cons a t ih =>
    intro seen
    unfold firstOccsAux
    by_cases h : a ∈ seen
    · rw [if_pos h, ih]
      constructor
      · rintro ⟨hx, hs⟩
        exact ⟨List.mem_cons_of_mem _ hx, hs⟩
      · rintro ⟨hx, hs⟩
        rcases List.mem_cons.mp hx with rfl | hx
        · exact absurd h hs
        · exact ⟨hx, hs⟩
    · rw [if_neg h]
      constructor
      · intro hx
        rcases List.mem_cons.mp hx with rfl | hx
        · exact ⟨List.mem_cons_self _ _, h⟩
        · have hm := (ih (a :: seen)).mp hx
          exact ⟨List.mem_cons_of_mem _ hm.1,
            fun hs => hm.2 (List.mem_cons_of_mem _ hs)⟩
      · rintro ⟨hx, hs⟩
        by_cases hxa : x = a
        · subst hxa
          exact List.mem_cons_self _ _
        · rcases List.mem_cons.mp hx with rfl | hx
          · exact absurd rfl hxa
          · refine List.mem_cons_of_mem _ ((ih (a :: seen)).mpr ⟨hx, ?_⟩)
            intro hmem
            rcases List.mem_cons.mp hmem with h1 | h1
            · exact hxa h1
            · exact hs h1

theorem mem_firstOccs (x : String) (l : List String) :
    x ∈ firstOccs l ↔ x ∈ l := by
  unfold firstOccs
  rw [mem_firstOccsAux]
  simp

/-- An n-gram with at least one recorded occurrence appears among the keys
of the occurrence stream. -/
theorem mem_occ_fst_of_translations_ne_nil (d : List (String × String))
    (ph : String) (h : translationsOf d ph ≠ []) :
    ph ∈ (occurrences d).map (fun p => p.1) := by
  unfold translationsOf at h
  have hf : (occurrences d).filter (fun p => p.1 = ph) ≠ [] := by
    intro hnil
    rw [hnil] at h
    exact h rfl
  obtain ⟨p, hp⟩ := List.exists_mem_of_ne_nil _ hf
  have hm := List.mem_filter.mp hp
  have hfst : p.1 = ph := by
    have := hm.2
    simpa using this
  exact hfst ▸ List.mem_map_of_mem (fun p => p.1) hm.1

theorem idiomTest_eq_some (d : List (String × String)) (x ph m : String) :
    idiomTest d x = some (ph, m) ↔
      x = ph ∧ 3 ≤ (translationsOf d x).length ∧
        ∃ c, mostCommon (translationsOf d x) = some (m, c) ∧
          7 * (translationsOf d x).length ≤ 10 * c := by
  unfold idiomTest
  by_cases hlen : 3 ≤ (translationsOf d x).length
  · rw [if_pos hlen]
    cases hmc : mostCommon (translationsOf d x) with
    | none =>
      simp only [hmc]
      constructor
      · intro hcontra
        exact absurd hcontra (by simp)
      · rintro ⟨-, -, c, hc, -⟩
        exact absurd hc (by simp [hmc])
    | some mc =>
      obtain ⟨mv, mc2⟩ := mc
      dsimp only
      by_cases hthr : 7 * (translationsOf d x).length ≤ 10 * mc2
      · rw [if_pos hthr]
        constructor
        · intro hsome
          have hx : x = ph ∧ mv = m := by
            have := Option.some.inj hsome
            exact ⟨congrArg Prod.fst this, congrArg Prod.snd this⟩
          refine ⟨hx.1, hlen, mc2, ?_, hthr⟩
          rw [hx.2]
        · rintro ⟨rfl, -, c, hc, -⟩
          have hm1 : mv = m := congrArg Prod.fst (Option.some.inj hc)
          rw [hm1]
      · rw [if_neg hthr]
        constructor
        · intro hcontra
          exact absurd hcontra (by simp)
        · rintro ⟨rfl, -, c, hc, hle⟩
          have hc2 : mc2 = c := congrArg Prod.snd (Option.some.inj hc)
          rw [hc2] at hthr
          exact absurd hle hthr
  · rw [if_neg hlen]
    constructor
    · intro hcontra
      exact absurd hcontra (by simp)
    · rintro ⟨-, hl, -⟩
      exact absurd hl hlen

/-- `Counter` of a three-element constant list. -/
theorem mostCommon_triple (h : String) :
    mostCommon [h, h, h] = some (h, 3) := by
  simp [mostCommon, tally, bump]

/-- C5: an n-gram/meaning pair is kept by `extract_idioms` exactly when
the n-gram has at least 3 recorded occurrences and the meaning is its most
frequent aligned Hinglish sentence, covering at least 70% of the
occurrences; consequently an n-gram with exactly 2 occurrences is never
extracted, and one with exactly 3 identically-aligned occurrences always
is. -/
theorem c5_idiom_threshold :
    (∀ (dataset : List (String × String)) (ph m : String),
        ((ph, m) ∈ extract_idioms dataset ↔
          3 ≤ (translationsOf dataset ph).length ∧
            ∃ c, mostCommon (translationsOf dataset ph) = some (m, c) ∧
              7 * (translationsOf dataset ph).length ≤ 10 * c))
    ∧ (∀ (dataset : List (String × String)) (ph m : String),
        (translationsOf dataset ph).length = 2 →
        (ph, m) ∉ extract_idioms dataset)
    ∧ (∀ (dataset : List (String × String)) (ph h : String),
        translationsOf dataset ph = [h, h, h] →
        (ph, h) ∈ extract_idioms dataset) := by
  have main : ∀ (dataset : List (String × String)) (ph m : String),
      (ph, m) ∈ extract_idioms dataset ↔
        3 ≤ (translationsOf dataset ph).length ∧
          ∃ c, mostCommon (translationsOf dataset ph) = some (m, c) ∧
            7 * (translationsOf dataset ph).length ≤ 10 * c := by
    intro dataset ph m
    unfold extract_idioms
    rw [List.mem_filterMap]
    constructor
    · rintro ⟨x, -, hx⟩
      have hcond := (idiomTest_eq_some dataset x ph m).mp hx
      obtain ⟨rfl, hrest⟩ := hcond
      exact hrest
    · rintro ⟨hlen, c, hc, hthr⟩
      refine ⟨ph, ?_, ?_⟩
      · rw [mem_firstOccs]
        apply mem_occ_fst_of_translations_ne_nil
        intro hnil
        rw [hnil] at hlen
        simp at hlen
      · exact (idiomTest_eq_some dataset ph ph m).mpr ⟨rfl, hlen, c, hc, hthr⟩
  refine ⟨main, ?_, ?_⟩
  · intro dataset ph m hlen hmem
    have := ((main dataset ph m).mp hmem).1
    omega
  · intro dataset ph h htr
    refine (main dataset ph h).mpr ?_
    rw [htr]
    exact ⟨by simp, 3, mostCommon_triple h, by simp⟩

/-- Witness for C5 on two concrete corpora: three identical aligned pairs
(extracted) and two identical aligned pairs (not extracted). -/
theorem c5_idiom_threshold_witness :
    translationsOf
        [("milte hain", "ka kha"), ("milte hain", "ka kha"),
          ("milte hain", "ka kha")] "ka kha" =
      ["milte hain", "milte hain", "milte hain"]
    ∧ ("ka kha", "milte hain") ∈ extract_idioms
        [("milte hain", "ka kha"), ("milte hain", "ka kha"),
          ("milte hain", "ka kha")]
    ∧ (translationsOf
        [("milte hain", "ka kha"), ("milte hain", "ka kha")] "ka kha").length = 2
    ∧ ("ka kha", "milte hain") ∉ extract_idioms
        [("milte hain", "ka kha"), ("milte hain", "ka kha")] :=
  ⟨by decide,
    c5_idiom_threshold.2.2
      [("milte hain", "ka kha"), ("milte hain", "ka kha"),
        ("milte hain", "ka kha")] "ka kha" "milte hain" (by decide),
    by decide,
    c5_idiom_threshold.2.1
      [("milte hain", "ka kha"), ("milte hain", "ka kha")]
      "ka kha" "milte hain" (by decide)⟩

/-! ### C8: forward/reverse round trip -/

/-- C8: for a word `h` that is a vocabulary key but not a key of any
grammar category (and is already in normalized form), forward translation
returns `k = Vocabulary[h]`; and provided no other vocabulary entry shares
the Kumaoni value `k` (case-insensitively), reverse translation of `k`
returns the original `h` — the reverse scan checks vocabulary first and
its only matching entry is `(h, k)`. -/
theorem c8_round_trip (d : ChatData) (h k : String)
    (hv : List.lookup h d.vocab = some k)
    (hp : List.lookup h d.pronouns = none)
    (hq : List.lookup h d.question_words = none)
    (hpp : List.lookup h d.postpositions = none)
    (hch : normTok h = h)
    (hck : normTok k = pyLower k)
    (huniq : ∀ p ∈ d.vocab, pyLower p.2 = pyLower k → p = (h, k)) :
    translate_word d h "hinglish_to_kumaoni" = k
    ∧ translate_word d k "kumaoni_to_hinglish" = h := by
  constructor
  · have ht : translate_word d h "hinglish_to_kumaoni" = forward_word d h := by
      simp [translate_word]
    rw [ht]
    unfold forward_word
    rw [hch, hp, hq, hpp, hv]
  · have ht : translate_word d k "kumaoni_to_hinglish" = reverse_word d k := by
      simp [translate_word]
    rw [ht]
    unfold reverse_word
    rw [hck]
    have hmem : (h, k) ∈ d.vocab := lookup_mem hv
    have hpred : (fun p : String × String => pyLower p.2 == pyLower k) (h, k) = true := by
      simp
    have hsome : (d.vocab.find?
        (fun p => pyLower p.2 == pyLower k)).isSome = true := by
      rw [List.find?_isSome]
      exact ⟨(h, k), hmem, hpred⟩
    cases hf : d.vocab.find? (fun p => pyLower p.2 == pyLower k) with
    | none =>
      rw [hf] at hsome
      exact absurd hsome (by simp)
    | some q =>
      have hq1 : pyLower q.2 = pyLower k := by
        have := List.find?_some hf
        simpa using this
      have hq2 : q = (h, k) :=
        huniq q (List.mem_of_find?_eq_some hf) hq1
      rw [hq2]

/-- The single-entry vocabulary `paani ↦ pani` used to witness C8. -/
def c8Data : ChatData :=
  { vocab := [("paani", "pani")], phrases := [], verb_endings := [],
    postpositions := [], pronouns := [], question_words := [] }

/-- Witness for C8 on the single-entry vocabulary `paani ↦ pani`. -/
theorem c8_round_trip_witness :
    List.lookup "paani" c8Data.vocab = some "pani"
    ∧ (translate_word c8Data "paani" "hinglish_to_kumaoni" = "pani"
      ∧ translate_word c8Data "pani" "kumaoni_to_hinglish" = "paani") :=
  ⟨by decide,
    c8_round_trip c8Data "paani" "pani" (by decide) (by decide) (by decide)
      (by decide) (by decide) (by decide) (by decide)⟩

end KChat
